import Mathlib

/-!
Shallow embedding of `src/VCB01/logic.py`, the deterministic simulation core of
a 2D marble game, together with theorems checking the natural-language
specification against it.

Modelling conventions:
* Python floats are modelled exactly: quantities that are only ever copied from
  inputs or combined by field operations (colors, radii, configuration, `dt`)
  live in `ℚ`; kinematic quantities that pass through `math.sqrt` / `math.exp`
  (positions, velocities, masses) live in `ℝ`.
* Python dicts (`_balls`, `_inventory`) preserve insertion order and their keys
  always equal the stored ball's `id` field, so both are modelled as
  `List Ball` with assignment (`dictSet`: replace in place or append) and
  `pop` (`dictPop`: remove the entry, keep the order of the rest).
* `uuid.uuid4().hex` in `add_ball` only manufactures a caller-visible fresh id;
  the embedding takes the id as an argument, covering both branches.
-/

namespace VCB01

/-- `_clamp(value, lo, hi)` from logic.py line 59: `max(lo, min(hi, value))`. -/
def _clamp {α : Type} [LinearOrder α] (value lo hi : α) : α :=
  max lo (min hi value)

/-- Python's `int(q)` on a float: truncation toward zero. -/
def py_int (q : ℚ) : ℤ :=
  if q < 0 then -Int.floor (-q) else Int.floor q

/-- `_angle_lerp(a, b, t)` from logic.py lines 71-79.  The source converts the
hue fractions to radians (`aa = a*2π`, `bb = b*2π`), forms
`delta = (bb - aa + π) % 2π - π`, returns `((aa + delta*clamp(t,0,1)) % 2π)/2π`.
Every occurrence of `2π` cancels exactly (`x % m = m * fract (x/m)` for
`m > 0`), leaving the hue-unit form below. -/
def _angle_lerp (a b t : ℚ) : ℚ :=
  Int.fract (a + (Int.fract (b - a + 1/2) - 1/2) * _clamp t 0 1)

/-- `colorsys.rgb_to_hsv` (CPython), called by `_mix_color_towards`. -/
def rgb_to_hsv (r g b : ℚ) : ℚ × ℚ × ℚ :=
  let maxc := max r (max g b)
  let minc := min r (min g b)
  let rangec := maxc - minc
  let v := maxc
  if minc = maxc then (0, 0, v)
  else
    let s := rangec / maxc
    let rc := (maxc - r) / rangec
    let gc := (maxc - g) / rangec
    let bc := (maxc - b) / rangec
    let h := if r = maxc then bc - gc else if g = maxc then 2 + rc - bc else 4 + gc - rc
    (Int.fract (h / 6), s, v)

/-- `colorsys.hsv_to_rgb` (CPython), called by `_mix_color_towards`. -/
def hsv_to_rgb (h s v : ℚ) : ℚ × ℚ × ℚ :=
  if s = 0 then (v, v, v)
  else
    let i0 := py_int (h * 6)
    let f := h * 6 - i0
    let p := v * (1 - s)
    let q := v * (1 - s * f)
    let t := v * (1 - s * (1 - f))
    let i := i0 % 6
    if i = 0 then (v, t, p)
    else if i = 1 then (q, v, p)
    else if i = 2 then (p, v, t)
    else if i = 3 then (p, q, v)
    else if i = 4 then (t, p, v)
    else (v, p, q)

/-- RGB color triple, each channel a float in the source. -/
abbrev ColorRGB := ℚ × ℚ × ℚ

/-- `_mix_color_towards(src_rgb, dst_rgb, t)` from logic.py lines 82-96. -/
def _mix_color_towards (src_rgb dst_rgb : ColorRGB) (t : ℚ) : ColorRGB :=
  let shsv := rgb_to_hsv src_rgb.1 src_rgb.2.1 src_rgb.2.2
  let dhsv := rgb_to_hsv dst_rgb.1 dst_rgb.2.1 dst_rgb.2.2
  let h := _angle_lerp shsv.1 dhsv.1 t
  let s_target := max shsv.2.1 dhsv.2.1
  let s := _clamp ((1 - t) * shsv.2.1 + t * s_target) 0.35 1
  let v := _clamp ((1 - t) * shsv.2.2 + t * dhsv.2.2) 0 0.92
  let rgb := hsv_to_rgb h s v
  (_clamp rgb.1 0 1, _clamp rgb.2.1 0 1, _clamp rgb.2.2 0 1)

/-- `_normalize(vec)` from logic.py lines 63-68 (`math.hypot` is
`sqrt (x² + y²)`; a zero vector is returned unchanged). -/
noncomputable def _normalize (vec : ℝ × ℝ) : ℝ × ℝ :=
  let mag := Real.sqrt (vec.1 ^ 2 + vec.2 ^ 2)
  if mag = 0 then (0, 0) else (vec.1 / mag, vec.2 / mag)

/-- `Rect` dataclass from logic.py lines 15-24. -/
structure Rect where
  x : ℚ
  y : ℚ
  width : ℚ
  height : ℚ

/-- `Rect.contains_point`, inclusive on both edges; applied to ball positions,
which are real-valued. -/
def Rect.contains_point (r : Rect) (point : ℝ × ℝ) : Prop :=
  (r.x : ℝ) ≤ point.1 ∧ point.1 ≤ (r.x : ℝ) + (r.width : ℝ) ∧
  (r.y : ℝ) ≤ point.2 ∧ point.2 ≤ (r.y : ℝ) + (r.height : ℝ)

noncomputable instance (r : Rect) (point : ℝ × ℝ) : Decidable (r.contains_point point) :=
  inferInstanceAs (Decidable (_ ∧ _))

/-- `Ball` dataclass from logic.py lines 27-38; `mass` is filled in by
`__post_init__` (see `mkBall`). -/
structure Ball where
  id : String
  position : ℝ × ℝ
  velocity : ℝ × ℝ
  radius : ℚ
  color_rgb : ColorRGB
  mass : ℝ

/-- `Ball(...)` construction: `__post_init__` sets
`mass = max(1e-6, math.pi * radius ** 2)`. -/
noncomputable def mkBall (bid : String) (position velocity : ℝ × ℝ) (radius : ℚ)
    (color_rgb : ColorRGB) : Ball :=
  { id := bid, position := position, velocity := velocity, radius := radius,
    color_rgb := color_rgb, mass := max 1e-6 (Real.pi * (radius : ℝ) ^ 2) }

/-- The released-ball update shared by `spit_next` and `spit_specific`
(logic.py lines 199-203 and 212-215): overwrite position, set velocity to the
normalized direction scaled by `speed`, keep every other field. -/
noncomputable def spitBall (ball : Ball) (position direction : ℝ × ℝ) (speed : ℝ) : Ball :=
  { ball with position := position,
              velocity := ((_normalize direction).1 * speed, (_normalize direction).2 * speed) }

/-- `StepResult` dataclass from logic.py lines 41-47. -/
structure StepResult where
  time_advanced_s : ℚ
  mixed_pairs : List (String × String)
  deleted_ball_ids : List String
  captured_ball_ids : List String
  released_ball_ids : List String

/-- `Suction` dataclass from logic.py lines 50-56, with its field defaults. -/
structure Suction where
  is_active : Bool := false
  position : ℚ × ℚ := (0, 0)
  radius : ℚ := 160
  strength : ℚ := 1200
  capture_radius : ℚ := 28

/-- The `GameLogic` instance state from logic.py lines 113-139. -/
structure GameLogic where
  world_width : ℚ
  world_height : ℚ
  boundary_bounce : Bool
  linear_damping_per_second : ℚ
  max_color_mix_factor_per_second : ℚ
  gravity : ℚ × ℚ
  delete_zone : Rect
  balls : List Ball
  inventory : List Ball
  suction : Suction

/-- `GameLogic.__init__`: clamps the damping and mixing rates to `[0, 5]` and
defaults the delete zone to the bottom-right 120×120 square. -/
def GameLogic.init (world_width world_height : ℚ) (delete_zone : Option Rect)
    (boundary_bounce : Bool) (linear_damping_per_second : ℚ)
    (max_color_mix_factor_per_second : ℚ) (gravity : ℚ × ℚ) : GameLogic :=
  { world_width := world_width, world_height := world_height,
    boundary_bounce := boundary_bounce,
    linear_damping_per_second := _clamp linear_damping_per_second 0 5,
    max_color_mix_factor_per_second := _clamp max_color_mix_factor_per_second 0 5,
    gravity := gravity,
    delete_zone := delete_zone.getD
      { x := world_width - 120, y := world_height - 120, width := 120, height := 120 },
    balls := [], inventory := [], suction := {} }

/-- Python dict assignment `d[k] = v` for a ball keyed by its id: replace the
existing entry in place, else append at the end (insertion order preserved). -/
def dictSet : List Ball → Ball → List Ball
  | [], b => [b]
  | a :: rest, b => if a.id = b.id then b :: rest else a :: dictSet rest b

/-- Python dict `d.pop(k, None)`: the removed value (if any) and the remaining
entries in unchanged order. -/
def dictPop : List Ball → String → Option Ball × List Ball
  | [], _ => (none, [])
  | a :: rest, k =>
    if a.id = k then (some a, rest)
    else
      let r := dictPop rest k
      (r.1, a :: r.2)

/-- Id keys of a ball dict, in iteration order. -/
def keys (l : List Ball) : List String :=
  l.map (fun b => b.id)

/-- `GameLogic.add_ball` from logic.py lines 143-156 (the id is either
caller-supplied or a fresh uuid; both are covered by the `ball_id` argument).
The stored ball silently overwrites any active ball with the same id. -/
noncomputable def GameLogic.add_ball (g : GameLogic) (position velocity : ℝ × ℝ)
    (radius : ℚ) (color_rgb : ColorRGB) (ball_id : String) : GameLogic × String :=
  ({ g with balls := dictSet g.balls (mkBall ball_id position velocity radius color_rgb) },
   ball_id)

/-- `GameLogic.remove_ball` from logic.py lines 158-159. -/
def GameLogic.remove_ball (g : GameLogic) (ball_id : String) : GameLogic × Bool :=
  let r := dictPop g.balls ball_id
  ({ g with balls := r.2 }, r.1.isSome)

/-- `GameLogic.get_inventory_ids` from logic.py lines 165-166. -/
def GameLogic.get_inventory_ids (g : GameLogic) : List String :=
  keys g.inventory

/-- `GameLogic.set_delete_zone` from logic.py lines 168-169. -/
def GameLogic.set_delete_zone (g : GameLogic) (rect : Rect) : GameLogic :=
  { g with delete_zone := rect }

/-- `GameLogic.start_suction` from logic.py lines 173-181: activates, sets the
position, and overrides only the optional parameters that were supplied. -/
def GameLogic.start_suction (g : GameLogic) (position : ℚ × ℚ)
    (radius strength capture_radius : Option ℚ) : GameLogic :=
  { g with suction :=
    { is_active := true, position := position,
      radius := radius.getD g.suction.radius,
      strength := strength.getD g.suction.strength,
      capture_radius := capture_radius.getD g.suction.capture_radius } }

/-- `GameLogic.update_suction` from logic.py lines 183-186: repositions only
while active. -/
def GameLogic.update_suction (g : GameLogic) (position : ℚ × ℚ) : GameLogic :=
  if g.suction.is_active then { g with suction := { g.suction with position := position } }
  else g

/-- `GameLogic.stop_suction` from logic.py lines 188-189. -/
def GameLogic.stop_suction (g : GameLogic) : GameLogic :=
  { g with suction := { g.suction with is_active := false } }

/-- `GameLogic.spit_next` from logic.py lines 192-205: pops the first
(oldest) inventory entry, reuses its radius and color, overwrites position and
velocity, and re-inserts it into the active set under its original id. -/
noncomputable def GameLogic.spit_next (g : GameLogic) (position direction : ℝ × ℝ)
    (speed : ℝ) : GameLogic × Option String :=
  match g.inventory with
  | [] => (g, none)
  | ball :: rest =>
    ({ g with inventory := rest,
              balls := dictSet g.balls (spitBall ball position direction speed) }, some ball.id)

/-- `GameLogic.spit_specific` from logic.py lines 207-217: same as
`spit_next` but pops a named inventory id; fails if it is absent. -/
noncomputable def GameLogic.spit_specific (g : GameLogic) (ball_id : String)
    (position direction : ℝ × ℝ) (speed : ℝ) : GameLogic × Bool :=
  let r := dictPop g.inventory ball_id
  match r.1 with
  | none => (g, false)
  | some ball =>
    ({ g with inventory := r.2,
              balls := dictSet g.balls (spitBall ball position direction speed) }, true)

/-- Suction-force phase of `GameLogic.step` (logic.py lines 237-258), applied
to one ball: if the distance to the suction point is within the suction radius
and above the `1e-6` singularity guard, accelerate the ball toward it with
quadratic falloff. -/
noncomputable def suctionKick (s : Suction) (dt : ℚ) (b : Ball) : Ball :=
  let to_sx : ℝ := (s.position.1 : ℝ) - b.position.1
  let to_sy : ℝ := (s.position.2 : ℝ) - b.position.2
  let dist := Real.sqrt (to_sx ^ 2 + to_sy ^ 2)
  if dist ≤ (s.radius : ℝ) ∧ (1e-6 : ℝ) < dist then
    let falloff := 1 - dist / (s.radius : ℝ)
    let accel_mag := (s.strength : ℝ) * falloff ^ 2 / b.mass
    { b with velocity := (b.velocity.1 + to_sx / dist * accel_mag * (dt : ℝ),
                          b.velocity.2 + to_sy / dist * accel_mag * (dt : ℝ)) }
  else b

/-- Motion integration of `GameLogic.step` (logic.py lines 261-266), before
boundary handling: add gravity, apply the exponential damping factor
`exp(-linear_damping_per_second * dt)`, then advance the position. -/
noncomputable def integrate (g : GameLogic) (dt : ℚ) (b : Ball) : Ball :=
  let damping : ℝ := Real.exp (-((g.linear_damping_per_second : ℝ) * (dt : ℝ)))
  let vx := (b.velocity.1 + (g.gravity.1 : ℝ) * (dt : ℝ)) * damping
  let vy := (b.velocity.2 + (g.gravity.2 : ℝ) * (dt : ℝ)) * damping
  { b with position := (b.position.1 + vx * (dt : ℝ), b.position.2 + vy * (dt : ℝ)),
           velocity := (vx, vy) }

/-- Boundary handling of `GameLogic.step` (logic.py lines 268-292): bounce
clamps each axis inside the world and forces the velocity component inward;
wrap teleports to the opposite edge once the ball fully exits, leaving the
velocity untouched. -/
noncomputable def applyBoundary (g : GameLogic) (b : Ball) : Ball :=
  if g.boundary_bounce then
    let px := if b.position.1 - (b.radius : ℝ) < 0 then (b.radius : ℝ)
      else if b.position.1 + (b.radius : ℝ) > (g.world_width : ℝ) then
        (g.world_width : ℝ) - (b.radius : ℝ)
      else b.position.1
    let vx := if b.position.1 - (b.radius : ℝ) < 0 then |b.velocity.1|
      else if b.position.1 + (b.radius : ℝ) > (g.world_width : ℝ) then -|b.velocity.1|
      else b.velocity.1
    let py := if b.position.2 - (b.radius : ℝ) < 0 then (b.radius : ℝ)
      else if b.position.2 + (b.radius : ℝ) > (g.world_height : ℝ) then
        (g.world_height : ℝ) - (b.radius : ℝ)
      else b.position.2
    let vy := if b.position.2 - (b.radius : ℝ) < 0 then |b.velocity.2|
      else if b.position.2 + (b.radius : ℝ) > (g.world_height : ℝ) then -|b.velocity.2|
      else b.velocity.2
    { b with position := (px, py), velocity := (vx, vy) }
  else
    let px := if b.position.1 < -(b.radius : ℝ) then (g.world_width : ℝ) + (b.radius : ℝ)
      else if b.position.1 > (g.world_width : ℝ) + (b.radius : ℝ) then -(b.radius : ℝ)
      else b.position.1
    let py := if b.position.2 < -(b.radius : ℝ) then (g.world_height : ℝ) + (b.radius : ℝ)
      else if b.position.2 > (g.world_height : ℝ) + (b.radius : ℝ) then -(b.radius : ℝ)
      else b.position.2
    { b with position := (px, py) }

/-- One ball's motion in `GameLogic.step`: integration followed by boundary
handling. -/
noncomputable def moveBall (g : GameLogic) (dt : ℚ) (b : Ball) : Ball :=
  applyBoundary g (integrate g dt b)

/-- The full per-ball effect of the pre-capture phases of `GameLogic.step`:
the suction kick (when suction is active) followed by motion. -/
noncomputable def postMotion (g : GameLogic) (dt : ℚ) (b : Ball) : Ball :=
  moveBall g dt (if g.suction.is_active then suctionKick g.suction dt b else b)

/-- The capture test of `GameLogic.step` (logic.py line 300): the ball is
within `max(capture_radius, radius * 0.8)` of the suction point. -/
def captureCheck (s : Suction) (b : Ball) : Prop :=
  Real.sqrt ((b.position.1 - (s.position.1 : ℝ)) ^ 2 +
      (b.position.2 - (s.position.2 : ℝ)) ^ 2) ≤
    max (s.capture_radius : ℝ) ((b.radius : ℝ) * 0.8)

noncomputable instance (s : Suction) (b : Ball) : Decidable (captureCheck s b) :=
  inferInstanceAs (Decidable (_ ≤ _))

/-- The `to_capture` batch of `GameLogic.step` (logic.py lines 297-302): ids of
all active balls passing the capture test, in iteration order. -/
noncomputable def capture_scan (s : Suction) : List Ball → List String
  | [] => []
  | b :: rest =>
    if captureCheck s b then b.id :: capture_scan s rest else capture_scan s rest

/-- The capture removal loop of `GameLogic.step` (logic.py lines 304-309): pop
each collected id from the active dict and move it into the inventory,
recording the id. -/
def captureLoop : List String → List Ball → List Ball → List String →
    List Ball × List Ball × List String
  | [], balls, inv, captured => (balls, inv, captured)
  | bid :: rest, balls, inv, captured =>
    let r := dictPop balls bid
    match r.1 with
    | none => captureLoop rest r.2 inv captured
    | some ball => captureLoop rest r.2 (dictSet inv ball) (captured ++ [bid])

/-- Capture phase of `GameLogic.step` (active balls, inventory, captured ids). -/
noncomputable def capturePhase (s : Suction) (balls inv : List Ball) :
    List Ball × List Ball × List String :=
  captureLoop (capture_scan s balls) balls inv []

/-- Inner mixing loop of `GameLogic.step` (logic.py lines 317-325) for a fixed
first ball `a`: walk the later balls in order; on overlap
(`hypot(ax-bx, ay-by) <= a.radius + b.radius`) first overwrite `a`'s color with
the mix toward `b`, then overwrite `b`'s color with the mix toward the
just-updated `a`, and record the pair.  Returns the final `a`, the updated
later balls, and the recorded pairs. -/
noncomputable def mixOne (t : ℚ) (a : Ball) : List Ball →
    Ball × List Ball × List (String × String)
  | [] => (a, [], [])
  | b :: bs =>
    if Real.sqrt ((a.position.1 - b.position.1) ^ 2 + (a.position.2 - b.position.2) ^ 2) ≤
        (a.radius : ℝ) + (b.radius : ℝ) then
      let a2 := { a with color_rgb := _mix_color_towards a.color_rgb b.color_rgb t }
      let b2 := { b with color_rgb := _mix_color_towards b.color_rgb a2.color_rgb t }
      let r := mixOne t a2 bs
      (r.1, b2 :: r.2.1, (a.id, b.id) :: r.2.2)
    else
      let r := mixOne t a bs
      (r.1, b :: r.2.1, r.2.2)

/-- `itertools.combinations(balls_list, 2)` enumerates the pairs in the order
`(l₀,l₁), (l₀,l₂), …, (l₁,l₂), …`; in-place color mutation makes each update
visible to every later pair.  `mixOne` handles all pairs led by the head ball;
the fuel argument (always called with the list length, which `mixOne`
preserves) makes the recursion on the updated tail structural. -/
noncomputable def mixAllFuel (t : ℚ) : ℕ → List Ball →
    List Ball × List (String × String)
  | 0, l => (l, [])
  | _ + 1, [] => ([], [])
  | n + 1, a :: rest =>
    let r1 := mixOne t a rest
    let r2 := mixAllFuel t n r1.2.1
    (r1.1 :: r2.1, r1.2.2 ++ r2.2)

/-- Color-mixing phase of `GameLogic.step` over the active ball list. -/
noncomputable def mixAll (t : ℚ) (l : List Ball) : List Ball × List (String × String) :=
  mixAllFuel t l.length l

/-- The `to_delete` batch of `GameLogic.step` (logic.py lines 328-331): ids of
active balls whose center lies in the delete zone. -/
noncomputable def delete_scan (dz : Rect) : List Ball → List String
  | [] => []
  | b :: rest =>
    if dz.contains_point b.position then b.id :: delete_scan dz rest
    else delete_scan dz rest

/-- The delete removal loop of `GameLogic.step` (logic.py lines 332-334). -/
def deleteLoop : List String → List Ball → List String → List Ball × List String
  | [], balls, deleted => (balls, deleted)
  | bid :: rest, balls, deleted =>
    let r := dictPop balls bid
    match r.1 with
    | none => deleteLoop rest r.2 deleted
    | some _ => deleteLoop rest r.2 (deleted ++ [bid])

/-- `GameLogic.step(dt)` from logic.py lines 221-343: clamp `dt` to `≥ 0` and
return unchanged on a zero-length step; otherwise run, in order, the suction
force phase, motion integration with boundary handling, capture, color mixing
(with per-step factor `clamp(rate * dt, 0, 0.75)`, skipped when zero), and the
delete-zone sweep, returning the new state and the `StepResult`. -/
noncomputable def GameLogic.step (g : GameLogic) (dt0 : ℚ) : GameLogic × StepResult :=
  let dt := max 0 dt0
  if dt = 0 then
    (g, { time_advanced_s := dt, mixed_pairs := [], deleted_ball_ids := [],
          captured_ball_ids := [], released_ball_ids := [] })
  else
    let balls1 := if g.suction.is_active then g.balls.map (suctionKick g.suction dt)
      else g.balls
    let balls2 := balls1.map (moveBall g dt)
    let cap := if g.suction.is_active then capturePhase g.suction balls2 g.inventory
      else (balls2, g.inventory, ([] : List String))
    let mix_t := _clamp (g.max_color_mix_factor_per_second * dt) 0 0.75
    let mixed := if 0 < mix_t then mixAll mix_t cap.1
      else (cap.1, ([] : List (String × String)))
    let del := deleteLoop (delete_scan g.delete_zone mixed.1) mixed.1 []
    ({ g with balls := del.1, inventory := cap.2.1 },
     { time_advanced_s := dt, mixed_pairs := mixed.2, deleted_ball_ids := del.2,
       captured_ball_ids := cap.2.2, released_ball_ids := [] })

section HelperLemmas

theorem le_clamp {α : Type} [LinearOrder α] (value lo hi : α) : lo ≤ _clamp value lo hi :=
  le_max_left _ _

theorem clamp_le {α : Type} [LinearOrder α] {lo hi : α} (value : α) (h : lo ≤ hi) :
    _clamp value lo hi ≤ hi :=
  max_le h (min_le_left _ _)

theorem mem_dictSet_self (l : List Ball) (b : Ball) : b ∈ dictSet l b := by
  induction l with
  | nil => simp [dictSet]
  | cons a rest ih =>
    by_cases h : a.id = b.id <;> simp [dictSet, h, ih]

theorem mem_dictSet_of_mem {l : List Ball} {a : Ball} (b : Ball)
    (ha : a ∈ l) (hne : a.id ≠ b.id) : a ∈ dictSet l b := by
  induction l with
  | nil => simp at ha
  | cons c rest ih =>
    rcases List.mem_cons.mp ha with rfl | ha
    · simp [dictSet, hne]
    · by_cases h : c.id = b.id
      · simp only [dictSet, if_pos h]
        exact List.mem_cons_of_mem _ ha
      · simp only [dictSet, if_neg h]
        exact List.mem_cons_of_mem _ (ih ha)

theorem mem_of_mem_dictSet {l : List Ball} {b c : Ball}
    (hc : c ∈ dictSet l b) (hne : c.id ≠ b.id) : c ∈ l := by
  induction l with
  | nil =>
    simp [dictSet] at hc
    exact absurd (congrArg Ball.id hc) hne
  | cons a rest ih =>
    by_cases h : a.id = b.id
    · simp only [dictSet, h, if_pos rfl] at hc
      rcases List.mem_cons.mp hc with rfl | hc
      · exact absurd rfl hne
      · exact List.mem_cons_of_mem _ hc
    · simp only [dictSet, if_neg h] at hc
      rcases List.mem_cons.mp hc with rfl | hc
      · exact List.mem_cons_self _ _
      · exact List.mem_cons_of_mem _ (ih hc)

theorem mem_keys_dictSet_of_mem {l : List Ball} {j : String} (b : Ball)
    (hj : j ∈ keys l) : j ∈ keys (dictSet l b) := by
  simp only [keys, List.mem_map] at hj ⊢
  obtain ⟨a, ha, rfl⟩ := hj
  by_cases h : a.id = b.id
  · exact ⟨b, mem_dictSet_self l b, h.symm⟩
  · exact ⟨a, mem_dictSet_of_mem b ha h, rfl⟩

theorem dictPop_none_eq {l : List Ball} {k : String}
    (h : (dictPop l k).1 = none) : (dictPop l k).2 = l := by
  induction l with
  | nil => rfl
  | cons a rest ih =>
    by_cases ha : a.id = k
    · simp [dictPop, ha] at h
    · simp only [dictPop, if_neg ha] at h ⊢
      rw [ih h]

theorem mem_of_mem_dictPop {l : List Ball} {k : String} {b : Ball}
    (hb : b ∈ (dictPop l k).2) : b ∈ l := by
  induction l with
  | nil => simp [dictPop] at hb
  | cons a rest ih =>
    by_cases ha : a.id = k
    · simp only [dictPop, if_pos ha] at hb
      exact List.mem_cons_of_mem _ hb
    · simp only [dictPop, if_neg ha, List.mem_cons] at hb
      rcases hb with rfl | hb
      · exact List.mem_cons_self _ _
      · exact List.mem_cons_of_mem _ (ih hb)

theorem mem_dictPop_of_mem {l : List Ball} {k : String} {b : Ball}
    (hb : b ∈ l) (hne : b.id ≠ k) : b ∈ (dictPop l k).2 := by
  induction l with
  | nil => simp at hb
  | cons a rest ih =>
    by_cases ha : a.id = k
    · simp only [dictPop, if_pos ha]
      rcases List.mem_cons.mp hb with rfl | hb
      · exact absurd ha hne
      · exact hb
    · simp only [dictPop, if_neg ha, List.mem_cons]
      rcases List.mem_cons.mp hb with rfl | hb
      · exact Or.inl rfl
      · exact Or.inr (ih hb)

theorem keys_dictPop_sub {l : List Ball} {k : String} {j : String}
    (hj : j ∈ keys (dictPop l k).2) : j ∈ keys l := by
  simp only [keys, List.mem_map] at hj ⊢
  obtain ⟨b, hb, rfl⟩ := hj
  exact ⟨b, mem_of_mem_dictPop hb, rfl⟩

theorem mem_keys_dictPop {l : List Ball} {k j : String}
    (hj : j ∈ keys l) (hne : j ≠ k) : j ∈ keys (dictPop l k).2 := by
  simp only [keys, List.mem_map] at hj ⊢
  obtain ⟨b, hb, rfl⟩ := hj
  exact ⟨b, mem_dictPop_of_mem hb hne, rfl⟩

theorem dictPop_isSome_of_mem {l : List Ball} {k : String}
    (hk : k ∈ keys l) : ∃ b, (dictPop l k).1 = some b ∧ b ∈ l ∧ b.id = k := by
  induction l with
  | nil => simp [keys] at hk
  | cons a rest ih =>
    by_cases ha : a.id = k
    · exact ⟨a, by simp [dictPop, ha], List.mem_cons_self _ _, ha⟩
    · simp only [keys, List.map_cons, List.mem_cons] at hk
      rcases hk with rfl | hk
      · exact absurd rfl ha
      · obtain ⟨b, hb1, hb2, hb3⟩ := ih (by simpa [keys] using hk)
        exact ⟨b, by simp [dictPop, if_neg ha, hb1], List.mem_cons_of_mem _ hb2, hb3⟩

theorem not_mem_keys_dictPop {l : List Ball} {k : String}
    (hnd : (keys l).Nodup) : k ∉ keys (dictPop l k).2 := by
  induction l with
  | nil => simp [dictPop, keys]
  | cons a rest ih =>
    simp only [keys, List.map_cons, List.nodup_cons] at hnd
    by_cases ha : a.id = k
    · simp only [dictPop, if_pos ha]
      intro hk
      exact hnd.1 (ha ▸ (by simpa [keys] using hk))
    · simp only [dictPop, if_neg ha, keys, List.map_cons, List.mem_cons]
      rintro (rfl | hk)
      · exact ha rfl
      · exact ih hnd.2 (by simpa [keys] using hk)

theorem nodup_keys_dictPop {l : List Ball} {k : String}
    (hnd : (keys l).Nodup) : (keys (dictPop l k).2).Nodup := by
  induction l with
  | nil => simp [dictPop, keys]
  | cons a rest ih =>
    simp only [keys, List.map_cons, List.nodup_cons] at hnd
    by_cases ha : a.id = k
    · simpa only [dictPop, if_pos ha] using hnd.2
    · simp only [dictPop, if_neg ha, keys, List.map_cons, List.nodup_cons]
      refine ⟨fun hmem => hnd.1 (keys_dictPop_sub (by simpa [keys] using hmem)), ih hnd.2⟩

theorem suctionKick_id (s : Suction) (dt : ℚ) (b : Ball) :
    (suctionKick s dt b).id = b.id := by
  simp only [suctionKick]
  split <;> rfl

theorem suctionKick_position (s : Suction) (dt : ℚ) (b : Ball) :
    (suctionKick s dt b).position = b.position := by
  simp only [suctionKick]
  split <;> rfl

theorem suctionKick_radius (s : Suction) (dt : ℚ) (b : Ball) :
    (suctionKick s dt b).radius = b.radius := by
  simp only [suctionKick]
  split <;> rfl

theorem suctionKick_color (s : Suction) (dt : ℚ) (b : Ball) :
    (suctionKick s dt b).color_rgb = b.color_rgb := by
  simp only [suctionKick]
  split <;> rfl

theorem suctionKick_mass (s : Suction) (dt : ℚ) (b : Ball) :
    (suctionKick s dt b).mass = b.mass := by
  simp only [suctionKick]
  split <;> rfl

theorem integrate_id (g : GameLogic) (dt : ℚ) (b : Ball) :
    (integrate g dt b).id = b.id := rfl

theorem integrate_radius (g : GameLogic) (dt : ℚ) (b : Ball) :
    (integrate g dt b).radius = b.radius := rfl

theorem integrate_color (g : GameLogic) (dt : ℚ) (b : Ball) :
    (integrate g dt b).color_rgb = b.color_rgb := rfl

theorem integrate_mass (g : GameLogic) (dt : ℚ) (b : Ball) :
    (integrate g dt b).mass = b.mass := rfl

theorem applyBoundary_id (g : GameLogic) (b : Ball) :
    (applyBoundary g b).id = b.id := by
  simp only [applyBoundary]
  split <;> rfl

theorem applyBoundary_radius (g : GameLogic) (b : Ball) :
    (applyBoundary g b).radius = b.radius := by
  simp only [applyBoundary]
  split <;> rfl

theorem applyBoundary_color (g : GameLogic) (b : Ball) :
    (applyBoundary g b).color_rgb = b.color_rgb := by
  simp only [applyBoundary]
  split <;> rfl

theorem applyBoundary_mass (g : GameLogic) (b : Ball) :
    (applyBoundary g b).mass = b.mass := by
  simp only [applyBoundary]
  split <;> rfl

theorem moveBall_id (g : GameLogic) (dt : ℚ) (b : Ball) :
    (moveBall g dt b).id = b.id := by
  simp [moveBall, applyBoundary_id, integrate_id]

theorem moveBall_radius (g : GameLogic) (dt : ℚ) (b : Ball) :
    (moveBall g dt b).radius = b.radius := by
  simp [moveBall, applyBoundary_radius, integrate_radius]

theorem postMotion_id (g : GameLogic) (dt : ℚ) (b : Ball) :
    (postMotion g dt b).id = b.id := by
  simp only [postMotion, moveBall_id]
  split <;> simp [suctionKick_id]

theorem keys_map_suctionKick (s : Suction) (dt : ℚ) (l : List Ball) :
    keys (l.map (suctionKick s dt)) = keys l := by
  simp [keys, List.map_map, Function.comp_def, suctionKick_id]

theorem keys_map_moveBall (g : GameLogic) (dt : ℚ) (l : List Ball) :
    keys (l.map (moveBall g dt)) = keys l := by
  simp [keys, List.map_map, Function.comp_def, moveBall_id]

end HelperLemmas

/-- C3: `step(0)` — and `step(dt)` for any `dt ≤ 0`, since `dt` is clamped to
`≥ 0` — returns a `StepResult` with `time_advanced_s = 0` and empty
`mixed_pairs`, `deleted_ball_ids`, `captured_ball_ids` and `released_ball_ids`,
and leaves the whole world state (every ball's position, velocity, color, and
the active/inventory membership) unchanged, even if balls are already inside
the delete zone. -/
theorem step_nonpositive_dt_noop (g : GameLogic) (dt : ℚ) (h : dt ≤ 0) :
    g.step dt = (g, ⟨0, [], [], [], []⟩) := by
  have hmax : max 0 dt = 0 := max_eq_left h
  simp [GameLogic.step, hmax]

/-- Witness for C3 at `dt = 0` on a concrete world. -/
theorem step_nonpositive_dt_noop_witness :
    (GameLogic.init 100 100 none true 0.15 0.85 (0, 0)).step 0 =
      (GameLogic.init 100 100 none true 0.15 0.85 (0, 0), ⟨0, [], [], [], []⟩) :=
  step_nonpositive_dt_noop _ 0 le_rfl

/-- C7: every ball created by `add_ball` with radius `r > 0` has mass
`max(1e-6, π·r²)` at creation; in particular the `1e-6` floor applies whenever
`π·r²` is below it. -/
theorem add_ball_mass (g : GameLogic) (position velocity : ℝ × ℝ) (radius : ℚ)
    (color_rgb : ColorRGB) (bid : String) (hr : 0 < radius) :
    mkBall bid position velocity radius color_rgb ∈
      (g.add_ball position velocity radius color_rgb bid).1.balls ∧
    (mkBall bid position velocity radius color_rgb).mass =
      max 1e-6 (Real.pi * (radius : ℝ) ^ 2) ∧
    (Real.pi * (radius : ℝ) ^ 2 ≤ 1e-6 →
      (mkBall bid position velocity radius color_rgb).mass = 1e-6) := by
  refine ⟨?_, rfl, fun hsmall => ?_⟩
  · simp only [GameLogic.add_ball]
    exact mem_dictSet_self _ _
  · simp [mkBall, max_eq_left hsmall]

/-- Witness for C7 at a concrete small radius. -/
theorem add_ball_mass_witness :
    (mkBall "w" (0, 0) (0, 0) (1/2000) (1, 0, 0)).mass =
      max 1e-6 (Real.pi * (((1:ℚ)/2000 : ℚ) : ℝ) ^ 2) :=
  (add_ball_mass (GameLogic.init 100 100 none true 0.15 0.85 (0, 0)) (0, 0) (0, 0)
    (1/2000) (1, 0, 0) "w" (by norm_num)).2.1

/-- C8: for any two input colors with all channels in `[0,1]` and any mix
factor `t ∈ (0, 0.75]`, all three channels of `_mix_color_towards src dst t`
lie in `[0,1]`; every mixing operation performed during `step` is such a call
(with `t = clamp(rate·dt, 0, 0.75)`). -/
theorem mix_color_channels_in_unit_interval (src dst : ColorRGB) (t : ℚ)
    (hs1 : 0 ≤ src.1 ∧ src.1 ≤ 1) (hs2 : 0 ≤ src.2.1 ∧ src.2.1 ≤ 1)
    (hs3 : 0 ≤ src.2.2 ∧ src.2.2 ≤ 1)
    (hd1 : 0 ≤ dst.1 ∧ dst.1 ≤ 1) (hd2 : 0 ≤ dst.2.1 ∧ dst.2.1 ≤ 1)
    (hd3 : 0 ≤ dst.2.2 ∧ dst.2.2 ≤ 1)
    (ht : 0 < t ∧ t ≤ 0.75) :
    (0 ≤ (_mix_color_towards src dst t).1 ∧ (_mix_color_towards src dst t).1 ≤ 1) ∧
    (0 ≤ (_mix_color_towards src dst t).2.1 ∧ (_mix_color_towards src dst t).2.1 ≤ 1) ∧
    (0 ≤ (_mix_color_towards src dst t).2.2 ∧ (_mix_color_towards src dst t).2.2 ≤ 1) := by
  simp only [_mix_color_towards]
  exact ⟨⟨le_clamp _ _ _, clamp_le _ (by norm_num)⟩,
    ⟨le_clamp _ _ _, clamp_le _ (by norm_num)⟩,
    ⟨le_clamp _ _ _, clamp_le _ (by norm_num)⟩⟩

/-- Witness for C8 at concrete colors and `t = 0.75`. -/
theorem mix_color_channels_in_unit_interval_witness :
    (0 ≤ (_mix_color_towards (1, 0, 0) (0, 1, 0) 0.75).1 ∧
      (_mix_color_towards (1, 0, 0) (0, 1, 0) 0.75).1 ≤ 1) ∧
    (0 ≤ (_mix_color_towards (1, 0, 0) (0, 1, 0) 0.75).2.1 ∧
      (_mix_color_towards (1, 0, 0) (0, 1, 0) 0.75).2.1 ≤ 1) ∧
    (0 ≤ (_mix_color_towards (1, 0, 0) (0, 1, 0) 0.75).2.2 ∧
      (_mix_color_towards (1, 0, 0) (0, 1, 0) 0.75).2.2 ≤ 1) :=
  mix_color_channels_in_unit_interval (1, 0, 0) (0, 1, 0) 0.75
    (by norm_num) (by norm_num) (by norm_num) (by norm_num) (by norm_num) (by norm_num)
    (by norm_num)

/-- C9: with the wrap boundary policy, a ball whose integrated position
exceeds `width + radius` on the right reappears at `x = -radius` with velocity
left untouched by boundary handling in both components, and symmetrically for
the other side and the other axis; `moveBall` is exactly the per-ball motion
performed by `step(dt)` for each active ball. -/
theorem wrap_boundary_teleport (g : GameLogic) (dt : ℚ) (b : Ball)
    (hbb : g.boundary_bounce = false) (hdt : 0 < dt)
    (hr : 0 ≤ b.radius) (hw : 0 < g.world_width) (hh : 0 < g.world_height) :
    ((integrate g dt b).position.1 > (g.world_width : ℝ) + (b.radius : ℝ) →
      (moveBall g dt b).position.1 = -(b.radius : ℝ)) ∧
    ((integrate g dt b).position.1 < -(b.radius : ℝ) →
      (moveBall g dt b).position.1 = (g.world_width : ℝ) + (b.radius : ℝ)) ∧
    ((integrate g dt b).position.2 > (g.world_height : ℝ) + (b.radius : ℝ) →
      (moveBall g dt b).position.2 = -(b.radius : ℝ)) ∧
    ((integrate g dt b).position.2 < -(b.radius : ℝ) →
      (moveBall g dt b).position.2 = (g.world_height : ℝ) + (b.radius : ℝ)) ∧
    (moveBall g dt b).velocity = (integrate g dt b).velocity := by
  have hr' : (0 : ℝ) ≤ (b.radius : ℝ) := by exact_mod_cast hr
  have hw' : (0 : ℝ) < (g.world_width : ℝ) := by exact_mod_cast hw
  have hh' : (0 : ℝ) < (g.world_height : ℝ) := by exact_mod_cast hh
  simp only [moveBall, applyBoundary, hbb, Bool.false_eq_true, if_false, integrate_radius]
  refine ⟨fun h1 => ?_, fun h2 => ?_, fun h3 => ?_, fun h4 => ?_, trivial⟩
  · rw [if_neg (by linarith), if_pos h1]
  · rw [if_pos h2]
  · rw [if_neg (by linarith), if_pos h3]
  · rw [if_pos h4]

/-- Witness for C9: a concrete wrap-mode world and a ball resting beyond the
right edge. -/
theorem wrap_boundary_teleport_witness :
    (moveBall (GameLogic.init 100 100 none false 0 0 (0, 0)) 1
      (mkBall "w" (120, 50) (0, 0) 5 (1, 0, 0))).position.1 = (-5 : ℝ) := by
  have h := (wrap_boundary_teleport (GameLogic.init 100 100 none false 0 0 (0, 0)) 1
    (mkBall "w" (120, 50) (0, 0) 5 (1, 0, 0)) rfl (by norm_num) (by norm_num [mkBall])
    (by norm_num [GameLogic.init, _clamp]) (by norm_num [GameLogic.init, _clamp])).1
  rw [h (by norm_num [integrate, mkBall, GameLogic.init, _clamp])]
  norm_num [mkBall]

theorem dictPop_some_spec {l : List Ball} {k : String} {b : Ball}
    (h : (dictPop l k).1 = some b) : b.id = k ∧ b ∈ l := by
  induction l with
  | nil => simp [dictPop] at h
  | cons a rest ih =>
    by_cases ha : a.id = k
    · simp only [dictPop, if_pos ha, Option.some.injEq] at h
      exact ⟨h ▸ ha, h ▸ List.mem_cons_self _ _⟩
    · simp only [dictPop, if_neg ha] at h
      obtain ⟨h1, h2⟩ := ih h
      exact ⟨h1, List.mem_cons_of_mem _ h2⟩

/-- C6: `spit_next` returns `none` exactly when the inventory is empty, leaving
the state unchanged in that case; otherwise it removes and returns the id of
the first-inserted (earliest-captured) inventory entry — so repeated calls
release balls in first-in-first-out order of capture — re-inserting the ball
into the active set under its original id with the given position and velocity
`_normalize(direction) * speed`, where a zero direction vector yields zero
velocity rather than an error. -/
theorem spit_next_spec (g : GameLogic) (position direction : ℝ × ℝ) (speed : ℝ) :
    (g.inventory = [] → g.spit_next position direction speed = (g, none)) ∧
    (∀ b rest, g.inventory = b :: rest →
      (g.spit_next position direction speed).2 = some b.id ∧
      (g.spit_next position direction speed).1.inventory = rest ∧
      (g.spit_next position direction speed).1.balls =
        dictSet g.balls (spitBall b position direction speed)) ∧
    _normalize (0, 0) = (0, 0) := by
  refine ⟨fun h => ?_, fun b rest h => ?_, ?_⟩
  · simp [GameLogic.spit_next, h]
  · refine ⟨?_, ?_, ?_⟩ <;> simp [GameLogic.spit_next, h]
  · norm_num [_normalize, Real.sqrt_zero]

/-- Witness for C6: on a freshly initialized world the inventory is empty and
`spit_next` fails without touching the state. -/
theorem spit_next_spec_witness :
    (GameLogic.init 100 100 none true 0.15 0.85 (0, 0)).spit_next (0, 0) (1, 0) 10 =
      (GameLogic.init 100 100 none true 0.15 0.85 (0, 0), none) :=
  (spit_next_spec (GameLogic.init 100 100 none true 0.15 0.85 (0, 0)) (0, 0) (1, 0) 10).1 rfl

/-- C10: when `spit_next` or `spit_specific` releases a ball, only that ball's
position and velocity are overwritten — it keeps the id, radius, color and
mass it had while captured — and no other ball of the active set or of the
inventory is modified. -/
theorem spit_frame (g : GameLogic) (bid : String) (position direction : ℝ × ℝ)
    (speed : ℝ) :
    (∀ b rest, g.inventory = b :: rest →
      (∃ b2 ∈ (g.spit_next position direction speed).1.balls,
        b2.id = b.id ∧ b2.radius = b.radius ∧ b2.color_rgb = b.color_rgb ∧
        b2.mass = b.mass ∧ b2.position = position ∧
        b2.velocity = ((_normalize direction).1 * speed, (_normalize direction).2 * speed)) ∧
      (∀ a ∈ g.balls, a.id ≠ b.id → a ∈ (g.spit_next position direction speed).1.balls) ∧
      (g.spit_next position direction speed).1.inventory = rest) ∧
    (∀ b, (dictPop g.inventory bid).1 = some b →
      (∃ b2 ∈ (g.spit_specific bid position direction speed).1.balls,
        b2.id = b.id ∧ b2.radius = b.radius ∧ b2.color_rgb = b.color_rgb ∧
        b2.mass = b.mass ∧ b2.position = position ∧
        b2.velocity = ((_normalize direction).1 * speed, (_normalize direction).2 * speed)) ∧
      (∀ a ∈ g.balls, a.id ≠ b.id → a ∈ (g.spit_specific bid position direction speed).1.balls) ∧
      (∀ a ∈ g.inventory, a.id ≠ bid → a ∈ (g.spit_specific bid position direction speed).1.inventory)) := by
  constructor
  · intro b rest h
    refine ⟨⟨spitBall b position direction speed,
        ?_, rfl, rfl, rfl, rfl, rfl, rfl⟩, fun a ha hne => ?_, ?_⟩
    · simp only [GameLogic.spit_next, h]
      exact mem_dictSet_self _ _
    · simp only [GameLogic.spit_next, h]
      exact mem_dictSet_of_mem _ ha hne
    · simp [GameLogic.spit_next, h]
  · intro b hb
    refine ⟨⟨spitBall b position direction speed,
        ?_, rfl, rfl, rfl, rfl, rfl, rfl⟩, fun a ha hne => ?_, fun a ha hne => ?_⟩
    · simp only [GameLogic.spit_specific, hb]
      exact mem_dictSet_self _ _
    · simp only [GameLogic.spit_specific, hb]
      exact mem_dictSet_of_mem _ ha hne
    · simp only [GameLogic.spit_specific, hb]
      exact mem_dictPop_of_mem ha hne

/-- Witness for C10: releasing the single captured ball of a concrete world
keeps its id and radius and sets the requested position. -/
theorem spit_frame_witness :
    ∃ b2 ∈ (GameLogic.spit_next
        { GameLogic.init 100 100 none true 0.15 0.85 (0, 0) with
          inventory := [mkBall "a" (1, 1) (0, 0) 5 (1, 0, 0)] } (2, 2) (0, 0) 3).1.balls,
      b2.id = "a" ∧ b2.radius = 5 ∧ b2.position = ((2 : ℝ), (2 : ℝ)) := by
  obtain ⟨⟨b2, hmem, hid, hrad, _, _, hpos, _⟩, _, _⟩ :=
    (spit_frame { GameLogic.init 100 100 none true 0.15 0.85 (0, 0) with
        inventory := [mkBall "a" (1, 1) (0, 0) 5 (1, 0, 0)] } "a" (2, 2) (0, 0) 3).1
      (mkBall "a" (1, 1) (0, 0) 5 (1, 0, 0)) [] rfl
  exact ⟨b2, hmem, by simpa [mkBall] using hid, by simpa [mkBall] using hrad, hpos⟩

theorem captureLoop_balls_sub {ids : List String} {balls inv : List Ball}
    {acc : List String} {b : Ball}
    (hb : b ∈ (captureLoop ids balls inv acc).1) : b ∈ balls := by
  induction ids generalizing balls inv acc with
  | nil => simpa [captureLoop] using hb
  | cons bid rest ih =>
    simp only [captureLoop] at hb
    rcases hpop : (dictPop balls bid).1 with _ | ball
    · rw [hpop] at hb
      exact mem_of_mem_dictPop (ih hb)
    · rw [hpop] at hb
      exact mem_of_mem_dictPop (ih hb)

theorem deleteLoop_balls_sub {ids : List String} {balls : List Ball}
    {acc : List String} {b : Ball}
    (hb : b ∈ (deleteLoop ids balls acc).1) : b ∈ balls := by
  induction ids generalizing balls acc with
  | nil => simpa [deleteLoop] using hb
  | cons bid rest ih =>
    simp only [deleteLoop] at hb
    rcases hpop : (dictPop balls bid).1 with _ | ball
    · rw [hpop] at hb
      exact mem_of_mem_dictPop (ih hb)
    · rw [hpop] at hb
      exact mem_of_mem_dictPop (ih hb)

theorem mixOne_fst_fields (t : ℚ) (l : List Ball) : ∀ a : Ball,
    (mixOne t a l).1.id = a.id ∧ (mixOne t a l).1.position = a.position ∧
    (mixOne t a l).1.velocity = a.velocity ∧ (mixOne t a l).1.radius = a.radius ∧
    (mixOne t a l).1.mass = a.mass := by
  induction l with
  | nil => exact fun a => ⟨rfl, rfl, rfl, rfl, rfl⟩
  | cons b bs ih =>
    intro a
    simp only [mixOne]
    split
    · exact ih { a with color_rgb := _mix_color_towards a.color_rgb b.color_rgb t }
    · exact ih a

theorem mixOne_snd_fields (t : ℚ) (l : List Ball) : ∀ a : Ball, ∀ c ∈ (mixOne t a l).2.1,
    ∃ b ∈ l, c.id = b.id ∧ c.position = b.position ∧ c.velocity = b.velocity ∧
      c.radius = b.radius ∧ c.mass = b.mass := by
  induction l with
  | nil =>
    intro a c hc
    simp [mixOne] at hc
  | cons b bs ih =>
    intro a c hc
    simp only [mixOne] at hc
    split at hc
    · rcases List.mem_cons.mp hc with rfl | hc2
      · exact ⟨b, List.mem_cons_self _ _, rfl, rfl, rfl, rfl, rfl⟩
      · obtain ⟨b2, hb2, h⟩ := ih _ c hc2
        exact ⟨b2, List.mem_cons_of_mem _ hb2, h⟩
    · rcases List.mem_cons.mp hc with rfl | hc2
      · exact ⟨c, List.mem_cons_self _ _, rfl, rfl, rfl, rfl, rfl⟩
      · obtain ⟨b2, hb2, h⟩ := ih _ c hc2
        exact ⟨b2, List.mem_cons_of_mem _ hb2, h⟩

theorem mixAllFuel_fields (t : ℚ) : ∀ (n : ℕ) (l : List Ball), ∀ c ∈ (mixAllFuel t n l).1,
    ∃ b ∈ l, c.id = b.id ∧ c.position = b.position ∧ c.velocity = b.velocity ∧
      c.radius = b.radius ∧ c.mass = b.mass := by
  intro n
  induction n with
  | zero =>
    intro l c hc
    simp only [mixAllFuel] at hc
    exact ⟨c, hc, rfl, rfl, rfl, rfl, rfl⟩
  | succ n ih =>
    intro l c hc
    match l with
    | [] => simp [mixAllFuel] at hc
    | a :: rest =>
      simp only [mixAllFuel] at hc
      rcases List.mem_cons.mp hc with rfl | hc2
      · obtain ⟨h1, h2, h3, h4, h5⟩ := mixOne_fst_fields t rest a
        exact ⟨a, List.mem_cons_self _ _, h1, h2, h3, h4, h5⟩
      · obtain ⟨bmid, hbmid, k1, k2, k3, k4, k5⟩ := ih _ c hc2
        obtain ⟨b, hb, m1, m2, m3, m4, m5⟩ := mixOne_snd_fields t rest a bmid hbmid
        exact ⟨b, List.mem_cons_of_mem _ hb, k1.trans m1, k2.trans m2, k3.trans m3,
          k4.trans m4, k5.trans m5⟩

theorem mixAll_fields (t : ℚ) (l : List Ball) : ∀ c ∈ (mixAll t l).1,
    ∃ b ∈ l, c.id = b.id ∧ c.position = b.position ∧ c.velocity = b.velocity ∧
      c.radius = b.radius ∧ c.mass = b.mass :=
  mixAllFuel_fields t l.length l

theorem balls2_eq_map_postMotion (g : GameLogic) (dt : ℚ) :
    (if g.suction.is_active then g.balls.map (suctionKick g.suction dt)
      else g.balls).map (moveBall g dt) = g.balls.map (postMotion g dt) := by
  by_cases hact : g.suction.is_active
  · simp [hact, postMotion, List.map_map, Function.comp_def]
  · simp [hact, postMotion]

theorem moveBall_bounce_bounds (g : GameLogic) (dt : ℚ) (b : Ball)
    (hbb : g.boundary_bounce = true)
    (hx : (b.radius : ℝ) * 2 ≤ (g.world_width : ℝ))
    (hy : (b.radius : ℝ) * 2 ≤ (g.world_height : ℝ)) :
    (b.radius : ℝ) ≤ (moveBall g dt b).position.1 ∧
    (moveBall g dt b).position.1 ≤ (g.world_width : ℝ) - (b.radius : ℝ) ∧
    (b.radius : ℝ) ≤ (moveBall g dt b).position.2 ∧
    (moveBall g dt b).position.2 ≤ (g.world_height : ℝ) - (b.radius : ℝ) := by
  simp only [moveBall, applyBoundary, hbb, if_true, integrate_radius]
  refine ⟨?_, ?_, ?_, ?_⟩ <;> split_ifs <;> linarith

/-- Every ball active after a positive-`dt` step is a ball of the pre-step
active set carried through the suction and motion phases (`postMotion`), with
only its color possibly changed afterwards by mixing. -/
theorem step_balls_origin (g : GameLogic) (dt : ℚ) (hdt : 0 < dt) :
    ∀ c ∈ (g.step dt).1.balls, ∃ b0 ∈ g.balls,
      c.id = (postMotion g dt b0).id ∧ c.position = (postMotion g dt b0).position ∧
      c.velocity = (postMotion g dt b0).velocity ∧ c.radius = (postMotion g dt b0).radius ∧
      c.mass = (postMotion g dt b0).mass := by
  intro c hc
  have hmax : max 0 dt = dt := max_eq_right hdt.le
  simp only [GameLogic.step, hmax, if_neg (ne_of_gt hdt)] at hc
  have hc4 := deleteLoop_balls_sub hc
  have hc3 : ∃ b3 ∈ (if g.suction.is_active
      then capturePhase g.suction
        ((if g.suction.is_active then g.balls.map (suctionKick g.suction dt)
          else g.balls).map (moveBall g dt)) g.inventory
      else ((if g.suction.is_active then g.balls.map (suctionKick g.suction dt)
          else g.balls).map (moveBall g dt), g.inventory, ([] : List String))).1,
      c.id = b3.id ∧ c.position = b3.position ∧ c.velocity = b3.velocity ∧
      c.radius = b3.radius ∧ c.mass = b3.mass := by
    by_cases hm : 0 < _clamp (g.max_color_mix_factor_per_second * dt) 0 0.75
    · rw [if_pos hm] at hc4
      exact mixAll_fields _ _ c hc4
    · rw [if_neg hm] at hc4
      exact ⟨c, hc4, rfl, rfl, rfl, rfl, rfl⟩
  obtain ⟨b3, hb3, f1, f2, f3, f4, f5⟩ := hc3
  have hb3m : b3 ∈ g.balls.map (postMotion g dt) := by
    rw [← balls2_eq_map_postMotion g dt]
    by_cases hact : g.suction.is_active
    · rw [if_pos hact] at hb3
      simp only [capturePhase] at hb3
      exact captureLoop_balls_sub hb3
    · rw [if_neg hact] at hb3
      exact hb3
  obtain ⟨b0, hb0, hb0eq⟩ := List.mem_map.mp hb3m
  exact ⟨b0, hb0, hb0eq ▸ f1, hb0eq ▸ f2, hb0eq ▸ f3, hb0eq ▸ f4, hb0eq ▸ f5⟩

/-- C5: with the bounce boundary policy, after any single `step(dt)` with
`dt > 0` — whatever velocities gravity, damping and suction produce — every
ball still in the active set has a position with
`radius ≤ x ≤ width - radius` and `radius ≤ y ≤ height - radius`, provided
every pre-step active ball's radius is at most `min(width, height)/2`. -/
theorem bounce_containment (g : GameLogic) (dt : ℚ)
    (hbb : g.boundary_bounce = true) (hdt : 0 < dt)
    (hr : ∀ b ∈ g.balls, b.radius ≤ min g.world_width g.world_height / 2) :
    ∀ b ∈ (g.step dt).1.balls,
      (b.radius : ℝ) ≤ b.position.1 ∧
      b.position.1 ≤ (g.world_width : ℝ) - (b.radius : ℝ) ∧
      (b.radius : ℝ) ≤ b.position.2 ∧
      b.position.2 ≤ (g.world_height : ℝ) - (b.radius : ℝ) := by
  intro c hc
  obtain ⟨b0, hb0, f1, f2, f3, f4, f5⟩ := step_balls_origin g dt hdt c hc
  have hrq := hr b0 hb0
  have hwq : b0.radius * 2 ≤ g.world_width := by
    have := min_le_left g.world_width g.world_height
    linarith
  have hhq : b0.radius * 2 ≤ g.world_height := by
    have := min_le_right g.world_width g.world_height
    linarith
  set b1 := if g.suction.is_active then suctionKick g.suction dt b0 else b0 with hb1
  have hrad1 : b1.radius = b0.radius := by
    rw [hb1]
    split <;> simp [suctionKick_radius]
  have hpm : postMotion g dt b0 = moveBall g dt b1 := rfl
  have hx : (b1.radius : ℝ) * 2 ≤ (g.world_width : ℝ) := by
    rw [hrad1]
    exact_mod_cast hwq
  have hy : (b1.radius : ℝ) * 2 ≤ (g.world_height : ℝ) := by
    rw [hrad1]
    exact_mod_cast hhq
  obtain ⟨g1, g2, g3, g4⟩ := moveBall_bounce_bounds g dt b1 hbb hx hy
  have hradc : c.radius = b1.radius := by
    rw [f4, hpm, moveBall_radius]
  have hposc : c.position = (moveBall g dt b1).position := by
    rw [f2, hpm]
  rw [hradc, hposc]
  exact ⟨g1, g2, g3, g4⟩

/-- Witness for C5: the concrete surviving ball of a one-ball bounce world
satisfies the containment bounds after one step. -/
theorem bounce_containment_witness :
    ((5 : ℚ) : ℝ) ≤ (moveBall { GameLogic.init 100 100 (some ⟨0, 0, 1, 1⟩) true 0 0 (0, 0) with
        balls := [mkBall "a" (50, 50) (0, 0) 5 (1, 0, 0)] } 1
        (mkBall "a" (50, 50) (0, 0) 5 (1, 0, 0))).position.1 ∧
    (moveBall { GameLogic.init 100 100 (some ⟨0, 0, 1, 1⟩) true 0 0 (0, 0) with
        balls := [mkBall "a" (50, 50) (0, 0) 5 (1, 0, 0)] } 1
        (mkBall "a" (50, 50) (0, 0) 5 (1, 0, 0))).position.1 ≤ ((100 : ℚ) : ℝ) - ((5 : ℚ) : ℝ) ∧
    ((5 : ℚ) : ℝ) ≤ (moveBall { GameLogic.init 100 100 (some ⟨0, 0, 1, 1⟩) true 0 0 (0, 0) with
        balls := [mkBall "a" (50, 50) (0, 0) 5 (1, 0, 0)] } 1
        (mkBall "a" (50, 50) (0, 0) 5 (1, 0, 0))).position.2 ∧
    (moveBall { GameLogic.init 100 100 (some ⟨0, 0, 1, 1⟩) true 0 0 (0, 0) with
        balls := [mkBall "a" (50, 50) (0, 0) 5 (1, 0, 0)] } 1
        (mkBall "a" (50, 50) (0, 0) 5 (1, 0, 0))).position.2 ≤ ((100 : ℚ) : ℝ) - ((5 : ℚ) : ℝ) := by
  have hmem : moveBall { GameLogic.init 100 100 (some ⟨0, 0, 1, 1⟩) true 0 0 (0, 0) with
      balls := [mkBall "a" (50, 50) (0, 0) 5 (1, 0, 0)] } 1
      (mkBall "a" (50, 50) (0, 0) 5 (1, 0, 0)) ∈
      (({ GameLogic.init 100 100 (some ⟨0, 0, 1, 1⟩) true 0 0 (0, 0) with
        balls := [mkBall "a" (50, 50) (0, 0) 5 (1, 0, 0)] } : GameLogic).step 1).1.balls := by
    norm_num [GameLogic.step, GameLogic.init, moveBall, integrate, applyBoundary,
      mkBall, _clamp, dictSet, dictPop, keys, delete_scan, deleteLoop,
      Rect.contains_point, mixAll, mixAllFuel, mixOne, capture_scan, captureCheck,
      capturePhase, captureLoop, suctionKick]
  have h := bounce_containment { GameLogic.init 100 100 (some ⟨0, 0, 1, 1⟩) true 0 0 (0, 0) with
      balls := [mkBall "a" (50, 50) (0, 0) 5 (1, 0, 0)] } 1 rfl (by norm_num)
    (by intro b hb; simp only [List.mem_singleton] at hb; subst hb; norm_num [mkBall, GameLogic.init])
    _ hmem
  simpa [moveBall_radius, mkBall, GameLogic.init] using h

theorem mem_capture_scan {s : Suction} {l : List Ball} {b : Ball}
    (hb : b ∈ l) (hcap : captureCheck s b) : b.id ∈ capture_scan s l := by
  induction l with
  | nil => simp at hb
  | cons a rest ih =>
    rcases List.mem_cons.mp hb with rfl | hb2
    · simp [capture_scan, if_pos hcap]
    · by_cases ha : captureCheck s a <;> simp [capture_scan, ha, ih hb2]

theorem captureLoop_keys_sub {ids : List String} {balls inv : List Ball}
    {acc : List String} {j : String}
    (hj : j ∈ keys (captureLoop ids balls inv acc).1) : j ∈ keys balls := by
  induction ids generalizing balls inv acc with
  | nil => simpa [captureLoop] using hj
  | cons bid rest ih =>
    simp only [captureLoop] at hj
    rcases hpop : (dictPop balls bid).1 with _ | ball
    · rw [hpop] at hj
      exact keys_dictPop_sub (ih hj)
    · rw [hpop] at hj
      exact keys_dictPop_sub (ih hj)

theorem captureLoop_inv_keys_mono {ids : List String} {balls inv : List Ball}
    {acc : List String} {j : String}
    (hj : j ∈ keys inv) : j ∈ keys (captureLoop ids balls inv acc).2.1 := by
  induction ids generalizing balls inv acc with
  | nil => simpa [captureLoop] using hj
  | cons bid rest ih =>
    simp only [captureLoop]
    rcases hpop : (dictPop balls bid).1 with _ | ball
    · exact ih hj
    · exact ih (mem_keys_dictSet_of_mem ball hj)

theorem captureLoop_acc_sub {ids : List String} {balls inv : List Ball}
    {acc : List String} {x : String}
    (hx : x ∈ acc) : x ∈ (captureLoop ids balls inv acc).2.2 := by
  induction ids generalizing balls inv acc with
  | nil => simpa [captureLoop] using hx
  | cons bid rest ih =>
    simp only [captureLoop]
    rcases hpop : (dictPop balls bid).1 with _ | ball
    · exact ih hx
    · exact ih (List.mem_append_left _ hx)

/-- The capture loop of `step`, on a dict with distinct keys: an id that was
both collected by the capture scan and present among the active balls ends up
removed from the active set, present in the inventory, and recorded in the
captured list. -/
theorem captureLoop_spec {ids : List String} {balls inv : List Ball}
    {acc : List String} {i : String}
    (hnd : (keys balls).Nodup) (hi : i ∈ ids) (hib : i ∈ keys balls) :
    i ∉ keys (captureLoop ids balls inv acc).1 ∧
    i ∈ keys (captureLoop ids balls inv acc).2.1 ∧
    i ∈ (captureLoop ids balls inv acc).2.2 := by
  induction ids generalizing balls inv acc with
  | nil => simp at hi
  | cons j rest ih =>
    by_cases hji : j = i
    · subst hji
      obtain ⟨b, hbsome, hbmem, hbid⟩ := dictPop_isSome_of_mem hib
      simp only [captureLoop, hbsome]
      refine ⟨fun hmem => ?_, ?_, ?_⟩
      · exact not_mem_keys_dictPop hnd (captureLoop_keys_sub hmem)
      · refine captureLoop_inv_keys_mono ?_
        simp only [keys, List.mem_map]
        exact ⟨b, mem_dictSet_self _ _, hbid⟩
      · exact captureLoop_acc_sub (List.mem_append_right _ (List.mem_singleton.mpr rfl))
    · have hi2 : i ∈ rest := by
        rcases List.mem_cons.mp hi with rfl | hi2
        · exact absurd rfl hji
        · exact hi2
      rcases hpop : (dictPop balls j).1 with _ | ball
      · simp only [captureLoop, hpop]
        rw [dictPop_none_eq hpop]
        exact ih hnd hi2 hib
      · simp only [captureLoop, hpop]
        exact ih (nodup_keys_dictPop hnd) hi2 (mem_keys_dictPop hib (Ne.symm hji))

theorem deleteLoop_keys_sub {ids : List String} {balls : List Ball}
    {acc : List String} {j : String}
    (hj : j ∈ keys (deleteLoop ids balls acc).1) : j ∈ keys balls := by
  induction ids generalizing balls acc with
  | nil => simpa [deleteLoop] using hj
  | cons bid rest ih =>
    simp only [deleteLoop] at hj
    rcases hpop : (dictPop balls bid).1 with _ | ball
    · rw [hpop] at hj
      exact keys_dictPop_sub (ih hj)
    · rw [hpop] at hj
      exact keys_dictPop_sub (ih hj)

theorem deleteLoop_deleted_sub {ids : List String} {balls : List Ball}
    {acc : List String} {x : String}
    (hx : x ∈ (deleteLoop ids balls acc).2) : x ∈ acc ∨ x ∈ keys balls := by
  induction ids generalizing balls acc with
  | nil =>
    simp only [deleteLoop] at hx
    exact Or.inl hx
  | cons bid rest ih =>
    simp only [deleteLoop] at hx
    rcases hpop : (dictPop balls bid).1 with _ | ball
    · rw [hpop] at hx
      rcases ih hx with h1 | h2
      · exact Or.inl h1
      · exact Or.inr (keys_dictPop_sub h2)
    · rw [hpop] at hx
      rcases ih hx with hacc | hkeys
      · rcases List.mem_append.mp hacc with h1 | h2
        · exact Or.inl h1
        · obtain ⟨hbid, hbmem⟩ := dictPop_some_spec hpop
          refine Or.inr ?_
          rw [List.mem_singleton.mp h2]
          simp only [keys, List.mem_map]
          exact ⟨ball, hbmem, hbid⟩
      · exact Or.inr (keys_dictPop_sub hkeys)

theorem mixOne_keys (t : ℚ) (l : List Ball) : ∀ a : Ball,
    keys (mixOne t a l).2.1 = keys l := by
  induction l with
  | nil => intro a; rfl
  | cons b bs ih =>
    intro a
    have ih1 := ih { a with color_rgb := _mix_color_towards a.color_rgb b.color_rgb t }
    have ih2 := ih a
    simp only [keys] at ih1 ih2 ⊢
    simp only [mixOne]
    split
    · simp [ih1]
    · simp [ih2]

theorem mixAllFuel_keys (t : ℚ) : ∀ (n : ℕ) (l : List Ball),
    keys (mixAllFuel t n l).1 = keys l := by
  intro n
  induction n with
  | zero => intro l; rfl
  | succ n ih =>
    intro l
    match l with
    | [] => rfl
    | a :: rest =>
      simp only [mixAllFuel, keys, List.map_cons]
      have h1 := mixOne_fst_fields t rest a
      have h2 := ih (mixOne t a rest).2.1
      have h3 := mixOne_keys t rest a
      simp only [keys] at h2 h3
      rw [h1.1, h2, h3]

theorem mixAll_keys (t : ℚ) (l : List Ball) : keys (mixAll t l).1 = keys l :=
  mixAllFuel_keys t l.length l

theorem keys_map_postMotion (g : GameLogic) (dt : ℚ) (l : List Ball) :
    keys (l.map (postMotion g dt)) = keys l := by
  simp [keys, List.map_map, Function.comp_def, postMotion_id]

theorem balls2_active_eq (g : GameLogic) (dt : ℚ) (hact : g.suction.is_active = true) :
    (g.balls.map (suctionKick g.suction dt)).map (moveBall g dt) =
      g.balls.map (postMotion g dt) := by
  simp [postMotion, hact, List.map_map, Function.comp_def]

/-- C2: during `step(dt)` with `dt > 0` and suction active, any ball of the
pre-step active set whose post-motion state passes the capture test while its
post-motion position lies inside the delete zone is recorded in
`captured_ball_ids` and not in `deleted_ball_ids`, and after the step it is
present in the inventory and absent from the active set — capture takes
priority over deletion. -/
theorem capture_priority (g : GameLogic) (dt : ℚ) (b : Ball)
    (hnd : (keys g.balls).Nodup) (hdt : 0 < dt) (hact : g.suction.is_active = true)
    (hb : b ∈ g.balls)
    (hcap : captureCheck g.suction (postMotion g dt b))
    (hdel : g.delete_zone.contains_point (postMotion g dt b).position) :
    b.id ∈ (g.step dt).2.captured_ball_ids ∧
    b.id ∉ (g.step dt).2.deleted_ball_ids ∧
    b.id ∈ keys (g.step dt).1.inventory ∧
    b.id ∉ keys (g.step dt).1.balls := by
  have hmax : max 0 dt = dt := max_eq_right hdt.le
  simp only [GameLogic.step, hmax, if_neg (ne_of_gt hdt), hact, if_true]
  rw [balls2_active_eq g dt hact]
  simp only [capturePhase]
  set B2 := g.balls.map (postMotion g dt) with hB2
  set CL := captureLoop (capture_scan g.suction B2) B2 g.inventory [] with hCL
  set mt := _clamp (g.max_color_mix_factor_per_second * dt) 0 0.75 with hmt
  have hnd2 : (keys B2).Nodup := by
    rw [hB2, keys_map_postMotion]
    exact hnd
  have hmem2 : postMotion g dt b ∈ B2 := List.mem_map_of_mem _ hb
  have hscan : b.id ∈ capture_scan g.suction B2 := by
    have h := mem_capture_scan hmem2 hcap
    rwa [postMotion_id] at h
  have hib : b.id ∈ keys B2 := by
    rw [hB2, keys_map_postMotion, keys]
    exact List.mem_map_of_mem _ hb
  obtain ⟨hnotin, hinv, hcapl⟩ := @captureLoop_spec _ _ _ ([] : List String) _ hnd2 hscan hib
  have hkeysM : keys (if 0 < mt then mixAll mt CL.1
      else (CL.1, ([] : List (String × String)))).1 = keys CL.1 := by
    by_cases hm : 0 < mt
    · rw [if_pos hm]
      exact mixAll_keys mt CL.1
    · rw [if_neg hm]
  refine ⟨hcapl, fun hdel2 => ?_, hinv, fun hballs => ?_⟩
  · rcases deleteLoop_deleted_sub hdel2 with h1 | h2
    · simp at h1
    · rw [hkeysM] at h2
      exact hnotin h2
  · have h := deleteLoop_keys_sub hballs
    rw [hkeysM] at h
    exact hnotin h

/-- Witness for C2: one ball resting exactly on the suction point, with the
delete zone containing that point. -/
theorem capture_priority_witness :
    ("a" ∈ (({ GameLogic.init 100 100 (some ⟨40, 40, 20, 20⟩) true 0 0 (0, 0) with
        balls := [mkBall "a" (50, 50) (0, 0) 5 (1, 0, 0)],
        suction := { is_active := true, position := (50, 50) } } : GameLogic).step 1).2.captured_ball_ids) ∧
    ("a" ∉ (({ GameLogic.init 100 100 (some ⟨40, 40, 20, 20⟩) true 0 0 (0, 0) with
        balls := [mkBall "a" (50, 50) (0, 0) 5 (1, 0, 0)],
        suction := { is_active := true, position := (50, 50) } } : GameLogic).step 1).2.deleted_ball_ids) ∧
    ("a" ∈ keys (({ GameLogic.init 100 100 (some ⟨40, 40, 20, 20⟩) true 0 0 (0, 0) with
        balls := [mkBall "a" (50, 50) (0, 0) 5 (1, 0, 0)],
        suction := { is_active := true, position := (50, 50) } } : GameLogic).step 1).1.inventory) ∧
    ("a" ∉ keys (({ GameLogic.init 100 100 (some ⟨40, 40, 20, 20⟩) true 0 0 (0, 0) with
        balls := [mkBall "a" (50, 50) (0, 0) 5 (1, 0, 0)],
        suction := { is_active := true, position := (50, 50) } } : GameLogic).step 1).1.balls) :=
  capture_priority
    { GameLogic.init 100 100 (some ⟨40, 40, 20, 20⟩) true 0 0 (0, 0) with
      balls := [mkBall "a" (50, 50) (0, 0) 5 (1, 0, 0)],
      suction := { is_active := true, position := (50, 50) } } 1
    (mkBall "a" (50, 50) (0, 0) 5 (1, 0, 0))
    (by simp [keys]) (by norm_num) rfl (by simp)
    (by norm_num [captureCheck, postMotion, moveBall, integrate, applyBoundary,
      suctionKick, mkBall, GameLogic.init, _clamp, Real.sqrt_zero])
    (by norm_num [Rect.contains_point, postMotion, moveBall, integrate, applyBoundary,
      suctionKick, mkBall, GameLogic.init, _clamp, Real.sqrt_zero])

/-- C4 (amended): in the color-mixing phase of `step`, the two balls of an
overlapping pair are mixed sequentially, not symmetrically: the first ball's
new color is the perceptual mix of its pre-mix color toward the second's
pre-mix color, but the second ball's new color is the mix of its pre-mix color
toward the first ball's already-updated color. -/
theorem mix_phase_two_ball (a b : Ball) (t : ℚ)
    (hov : Real.sqrt ((a.position.1 - b.position.1) ^ 2 +
        (a.position.2 - b.position.2) ^ 2) ≤ (a.radius : ℝ) + (b.radius : ℝ)) :
    (mixAll t [a, b]).1 =
      [{ a with color_rgb := _mix_color_towards a.color_rgb b.color_rgb t }, { b with color_rgb := _mix_color_towards b.color_rgb (_mix_color_towards a.color_rgb b.color_rgb t) t }] ∧
    (mixAll t [a, b]).2 = [(a.id, b.id)] := by
  constructor <;> simp [mixAll, mixAllFuel, mixOne, if_pos hov]

/-- Witness for the amended C4 on two concrete coincident balls. -/
theorem mix_phase_two_ball_witness :
    (mixAll 0.75 [mkBall "a" (5, 5) (0, 0) 5 (1, 0, 0),
      mkBall "b" (5, 5) (0, 0) 5 (0, 1, 0)]).2 = [("a", "b")] :=
  (mix_phase_two_ball (mkBall "a" (5, 5) (0, 0) 5 (1, 0, 0))
    (mkBall "b" (5, 5) (0, 0) 5 (0, 1, 0)) 0.75
    (by norm_num [mkBall, Real.sqrt_zero])).2

/-- C4 counterexample: for a red and a green ball at the same position and
`mix_t = 0.75`, the mixing phase does not produce the symmetric pre-mix-based
colors the claim describes (the second ball is mixed toward the first ball's
already-updated color instead). -/
theorem mix_symmetry_counterexample :
    ¬ ((mixAll 0.75 [mkBall "a" (5, 5) (0, 0) 5 (1, 0, 0),
        mkBall "b" (5, 5) (0, 0) 5 (0, 1, 0)]).1.map (fun x => x.color_rgb) =
      [_mix_color_towards (1, 0, 0) (0, 1, 0) 0.75,
       _mix_color_towards (0, 1, 0) (1, 0, 0) 0.75]) := by
  have hov : Real.sqrt ((((5 : ℝ)) - 5) ^ 2 + (((5 : ℝ)) - 5) ^ 2) ≤
      (((5 : ℚ) : ℝ)) + (((5 : ℚ) : ℝ)) := by
    norm_num [Real.sqrt_zero]
  simp only [mixAll, List.length_cons, List.length_nil, mixAllFuel, mixOne, mkBall,
    if_pos hov, List.map_cons, List.map_nil]
  norm_num [_mix_color_towards, rgb_to_hsv, hsv_to_rgb, _angle_lerp, _clamp, py_int,
    Int.fract, max_def, min_def]

/-- C1 exhibit: the code violates the disjointness invariant.  Start from a
fresh world, add ball `"a"`, activate suction on it and step so that `"a"` is
captured into the inventory, then call `add_ball` again with id `"a"`:
afterwards the id is a member of the active set and of the inventory at the
same time (`add_ball` silently overwrites the active entry and never checks
the inventory). -/
theorem active_inventory_overlap_exhibit :
    ("a" ∈ keys ((((((GameLogic.init 100 100 (some ⟨0, 0, 1, 1⟩) true 0 0
        (0, 0)).add_ball (50, 50) (0, 0) 5 (1, 0, 0) "a").1.start_suction (50, 50)
        none none none).step 1).1.add_ball (50, 50) (0, 0) 5 (0, 1, 0) "a").1.balls)) ∧
    ("a" ∈ keys ((((((GameLogic.init 100 100 (some ⟨0, 0, 1, 1⟩) true 0 0
        (0, 0)).add_ball (50, 50) (0, 0) 5 (1, 0, 0) "a").1.start_suction (50, 50)
        none none none).step 1).1.add_ball (50, 50) (0, 0) 5 (0, 1, 0) "a").1.inventory)) := by
  constructor <;>
    norm_num [GameLogic.init, GameLogic.add_ball, GameLogic.start_suction, GameLogic.step,
      suctionKick, moveBall, integrate, applyBoundary, capturePhase, capture_scan,
      captureCheck, captureLoop, mixAll, mixAllFuel, mixOne, delete_scan, deleteLoop,
      dictSet, dictPop, keys, mkBall, _clamp, Rect.contains_point, Real.sqrt_zero,
      max_def, min_def]

end VCB01
